import Mathlib

/-!
Verification of the renderblocks core against its specification.

The development shallowly embeds the two subsystems the claims are about:

* the deterministic layout / dimension / coloring functions of
  `src/components/blocks/NumberBlock.tsx` and the `types` module
  (`getSubBlockPositions`, `getCubePositions`, `getSubBlockDimensions`,
  `getBlockDimensions`, `getNumberBlockColor`, `getDigitColor`,
  `getCubeColor`), embedded over `ℕ` (they are only ever applied to
  non-negative integers by the layout claims, and all intermediate
  arithmetic is non-negative);

* the block store state machine of `src/hooks/useNumberBlocks.ts`
  (`addBlock`, `removeBlock`, `finalizeCombine`, `splitBlock`) and the
  sneeze handler of `AppShell.tsx` (`handleSneeze`,
  `calculateSneeze1Split`, `calculateSneeze2Split`), embedded with
  exact rational (`ℚ`) coordinates and values, matching the exact
  arithmetic the TypeScript performs at these magnitudes.  Sources of
  nondeterminism (generated uuids, `Date.now()`, `window.innerWidth`,
  `window.innerHeight`) are passed as explicit parameters, and the
  sound / animation side effects as well as the audio-sync timer are
  dropped: only the state transition is modelled.
-/

set_option maxRecDepth 40000

/-! ## Layout constants (types module) -/

/-- CUBE_SIZE = 48 pixels, each unit cube in a stack. -/
def CUBE_SIZE : ℕ := 48

/-- CUBE_GAP = 2 pixels, small gap between stacked cubes. -/
def CUBE_GAP : ℕ := 2

/-! ## Layout calculator (NumberBlock.tsx) -/

/-- Positions for a sub-block of `count` cubes at offset `(offsetX, offsetY)`;
transcription of `getSubBlockPositions` in NumberBlock.tsx.  Each TS
`for`-loop `for (i = 0; i < n; i++) positions.push(f(i))` becomes
`(List.range n).map f`; `Math.floor(i / k)` on the non-negative loop index is
`i / k` and `i % k` is `i % k`. -/
def getSubBlockPositions (count offsetX offsetY : ℕ) : List (ℕ × ℕ) :=
  if count = 0 then []
  else if count = 4 then
    -- 2x2 square
    (List.range 4).map fun i =>
      (offsetX + i % 2 * (CUBE_SIZE + CUBE_GAP), offsetY + (1 - i / 2) * (CUBE_SIZE + CUBE_GAP))
  else if count = 7 then
    -- Vertical rainbow tower
    (List.range 7).map fun i =>
      (offsetX, offsetY + (7 - 1 - i) * (CUBE_SIZE + CUBE_GAP))
  else if count = 9 then
    -- 3x3 square
    (List.range 9).map fun i =>
      (offsetX + i % 3 * (CUBE_SIZE + CUBE_GAP), offsetY + (2 - i / 3) * (CUBE_SIZE + CUBE_GAP))
  else if count ≤ 5 then
    -- Vertical stack
    (List.range count).map fun i =>
      (offsetX, offsetY + (count - 1 - i) * (CUBE_SIZE + CUBE_GAP))
  else
    -- 2 columns for 6+, tens-digit many columns for 30+;
    -- rows = Math.ceil(count / cols) = (count + cols - 1) / cols on naturals
    let cols := if 30 ≤ count then count / 10 else 2
    let rows := (count + cols - 1) / cols
    (List.range count).map fun i =>
      (offsetX + i % cols * (CUBE_SIZE + CUBE_GAP),
       offsetY + (rows - 1 - i / cols) * (CUBE_SIZE + CUBE_GAP))

/-- Column count used for arranging hundred-squares: the TS statements
`let hundredCols = 1; if (hundreds >= 4) hundredCols = 2; if (hundreds >= 7)
hundredCols = 3;`, shared by `getCubePositions` and `getBlockDimensions`. -/
def hundredColsOf (hundreds : ℕ) : ℕ :=
  if 7 ≤ hundreds then 3 else if 4 ≤ hundreds then 2 else 1

/-- The hundreds loop of `getCubePositions`: positions of the cubes of
`hundreds`-many 10x10 hundred-squares (the TS loop
`for (i = 0; i < hundreds * 100; i++)`), factored out of the embedding of
`getCubePositions` so the proofs can name it.  `hundredSquareSpacing`
evaluates to `10 * CUBE_SIZE + 9 * CUBE_GAP + CUBE_GAP * 2 = 502`. -/
def hundredsCubePositions (hundreds : ℕ) : List (ℕ × ℕ) :=
  let hundredSquareSpacing := 10 * CUBE_SIZE + 9 * CUBE_GAP + CUBE_GAP * 2
  let hundredCols := hundredColsOf hundreds
  let hundredRows := (hundreds + hundredCols - 1) / hundredCols
  (List.range (hundreds * 100)).map fun i =>
    (i / 100 % hundredCols * hundredSquareSpacing + i % 100 % 10 * (CUBE_SIZE + CUBE_GAP),
     (hundredRows - 1 - i / 100 / hundredCols) * hundredSquareSpacing +
       (9 - i % 100 / 10) * (CUBE_SIZE + CUBE_GAP))

/-- Cube positions for a block of value `value`; transcription of
`getCubePositions` in NumberBlock.tsx.  For 100 ≤ value the hundreds squares
are laid out first and then, when `value % 100 > 0`, the remainder is pushed
with `remainderOffsetX = hundredCols * hundredSquareSpacing + CUBE_GAP * 2`
and offset y 0. -/
def getCubePositions (value : ℕ) : List (ℕ × ℕ) :=
  if value < 100 then getSubBlockPositions value 0 0
  else
    let hundreds := value / 100
    let tensAndUnits := value % 100
    let hundredSquareSpacing := 10 * CUBE_SIZE + 9 * CUBE_GAP + CUBE_GAP * 2
    let hundredCols := hundredColsOf hundreds
    if 0 < tensAndUnits then
      hundredsCubePositions hundreds ++
        getSubBlockPositions tensAndUnits (hundredCols * hundredSquareSpacing + CUBE_GAP * 2) 0
    else hundredsCubePositions hundreds

/-- Dimensions of a sub-block (values < 100); transcription of
`getSubBlockDimensions` in the types module. -/
def getSubBlockDimensions (value : ℕ) : ℕ × ℕ :=
  if value = 0 then (0, 0)
  else if value = 4 then (CUBE_SIZE * 2 + CUBE_GAP, CUBE_SIZE * 2 + CUBE_GAP)
  else if value = 7 then (CUBE_SIZE, value * CUBE_SIZE + (value - 1) * CUBE_GAP)
  else if value = 9 then (CUBE_SIZE * 3 + CUBE_GAP * 2, CUBE_SIZE * 3 + CUBE_GAP * 2)
  else if value ≤ 5 then (CUBE_SIZE, value * CUBE_SIZE + (value - 1) * CUBE_GAP)
  else
    let cols := if 30 ≤ value then value / 10 else 2
    let rows := (value + cols - 1) / cols
    (cols * CUBE_SIZE + (cols - 1) * CUBE_GAP, rows * CUBE_SIZE + (rows - 1) * CUBE_GAP)

/-- Dimensions of a block of value `value`; transcription of
`getBlockDimensions` in the types module. -/
def getBlockDimensions (value : ℕ) : ℕ × ℕ :=
  if value < 100 then getSubBlockDimensions value
  else
    let hundreds := value / 100
    let tensAndUnits := value % 100
    let hundredSquareSpacing := 10 * CUBE_SIZE + 9 * CUBE_GAP + CUBE_GAP * 2
    let hundredCols := hundredColsOf hundreds
    let hundredRows := (hundreds + hundredCols - 1) / hundredCols
    let hundredsWidth := hundredCols * hundredSquareSpacing - CUBE_GAP * 2
    let hundredsHeight := hundredRows * hundredSquareSpacing - CUBE_GAP * 2
    let remainderDims := getSubBlockDimensions tensAndUnits
    if 0 < tensAndUnits then
      (hundredsWidth + CUBE_GAP * 4 + remainderDims.1, max hundredsHeight remainderDims.2)
    else (hundredsWidth, hundredsHeight)

/-! ## Bounding-box helpers for the layout proofs -/

/-- Largest x coordinate occurring in a position list (0 for the empty
list).  Defined with a left fold so concrete evaluation is iterative. -/
def maxXs (l : List (ℕ × ℕ)) : ℕ := l.foldl (fun m p => max m p.1) 0

/-- Largest y coordinate occurring in a position list (0 for the empty
list). -/
def maxYs (l : List (ℕ × ℕ)) : ℕ := l.foldl (fun m p => max m p.2) 0

theorem foldl_max_fst_init (l : List (ℕ × ℕ)) :
    ∀ a : ℕ, l.foldl (fun m p => max m p.1) a = max a (maxXs l) := by
  induction l with
  | nil =>
    intro a
    simp [maxXs]
  | cons x t ih =>
    intro a
    have hx : maxXs (x :: t) = max (max 0 x.1) (maxXs t) := by
      simp only [maxXs, List.foldl_cons]
      exact ih (max 0 x.1)
    simp only [List.foldl_cons]
    rw [ih, hx]
    omega

theorem foldl_max_snd_init (l : List (ℕ × ℕ)) :
    ∀ a : ℕ, l.foldl (fun m p => max m p.2) a = max a (maxYs l) := by
  induction l with
  | nil =>
    intro a
    simp [maxYs]
  | cons x t ih =>
    intro a
    have hx : maxYs (x :: t) = max (max 0 x.2) (maxYs t) := by
      simp only [maxYs, List.foldl_cons]
      exact ih (max 0 x.2)
    simp only [List.foldl_cons]
    rw [ih, hx]
    omega

theorem maxXs_cons (x : ℕ × ℕ) (t : List (ℕ × ℕ)) :
    maxXs (x :: t) = max (max 0 x.1) (maxXs t) := by
  simp only [maxXs, List.foldl_cons]
  exact foldl_max_fst_init t (max 0 x.1)

theorem maxYs_cons (x : ℕ × ℕ) (t : List (ℕ × ℕ)) :
    maxYs (x :: t) = max (max 0 x.2) (maxYs t) := by
  simp only [maxYs, List.foldl_cons]
  exact foldl_max_snd_init t (max 0 x.2)

theorem maxXs_append (l₁ l₂ : List (ℕ × ℕ)) :
    maxXs (l₁ ++ l₂) = max (maxXs l₁) (maxXs l₂) := by
  have h : maxXs (l₁ ++ l₂) = l₂.foldl (fun m p => max m p.1) (maxXs l₁) := by
    simp only [maxXs, List.foldl_append]
  rw [h, foldl_max_fst_init]

theorem maxYs_append (l₁ l₂ : List (ℕ × ℕ)) :
    maxYs (l₁ ++ l₂) = max (maxYs l₁) (maxYs l₂) := by
  have h : maxYs (l₁ ++ l₂) = l₂.foldl (fun m p => max m p.2) (maxYs l₁) := by
    simp only [maxYs, List.foldl_append]
  rw [h, foldl_max_snd_init]

theorem maxXs_map_translate (l : List (ℕ × ℕ)) (dx dy : ℕ) (h : l ≠ []) :
    maxXs (l.map fun p => (dx + p.1, dy + p.2)) = dx + maxXs l := by
  induction l with
  | nil => exact absurd rfl h
  | cons x t ih =>
    rw [List.map_cons, maxXs_cons, maxXs_cons]
    cases t with
    | nil =>
      simp [maxXs]
    | cons y u =>
      rw [ih (by simp)]
      simp only [Prod.fst]
      omega

theorem maxYs_map_translate (l : List (ℕ × ℕ)) (dx dy : ℕ) (h : l ≠ []) :
    maxYs (l.map fun p => (dx + p.1, dy + p.2)) = dy + maxYs l := by
  induction l with
  | nil => exact absurd rfl h
  | cons x t ih =>
    rw [List.map_cons, maxYs_cons, maxYs_cons]
    cases t with
    | nil =>
      simp [maxYs]
    | cons y u =>
      rw [ih (by simp)]
      simp only [Prod.snd]
      omega

/-- A sub-block layout at offset `(dx, dy)` is the layout at the origin,
translated. -/
theorem getSubBlockPositions_translate (count dx dy : ℕ) :
    getSubBlockPositions count dx dy =
      (getSubBlockPositions count 0 0).map fun p => (dx + p.1, dy + p.2) := by
  unfold getSubBlockPositions
  split_ifs <;> simp [List.map_map, Function.comp_def]

/-- A sub-block layout contains exactly `count` positions. -/
theorem getSubBlockPositions_length (count dx dy : ℕ) :
    (getSubBlockPositions count dx dy).length = count := by
  unfold getSubBlockPositions
  split_ifs with h1 h2 h3 h4 h5 <;> simp_all

/-- The hundreds loop produces `hundreds * 100` positions. -/
theorem hundredsCubePositions_length (hundreds : ℕ) :
    (hundredsCubePositions hundreds).length = hundreds * 100 := by
  simp [hundredsCubePositions]

/-- The layout of value `v` always contains exactly `v` cube positions. -/
theorem getCubePositions_length (v : ℕ) : (getCubePositions v).length = v := by
  simp only [getCubePositions]
  split_ifs with h1 h2
  · exact getSubBlockPositions_length v 0 0
  · simp only [List.length_append, hundredsCubePositions_length,
      getSubBlockPositions_length]
    omega
  · simp only [hundredsCubePositions_length]
    omega

/-- C6: for every integer v with 0 ≤ v < 100, the layout function returns
exactly v cube positions. -/
theorem layout_cube_count (v : ℕ) (_hv : v < 100) : (getCubePositions v).length = v :=
  getCubePositions_length v

/-- Witness for C6 at v = 73. -/
theorem layout_cube_count_witness :
    (73 : ℕ) < 100 ∧ (getCubePositions 73).length = 73 :=
  ⟨by decide, layout_cube_count 73 (by decide)⟩

/-! ## C9: the collision box matches the rendered cube arrangement -/

/-- For 1 ≤ v < 100 the sub-block dimensions are exactly the tight bounding
box of the sub-block positions (checked exhaustively). -/
theorem getSubBlockDimensions_eq_bbox :
    ∀ v : ℕ, v < 100 → 0 < v →
      getSubBlockDimensions v =
        (maxXs (getSubBlockPositions v 0 0) + CUBE_SIZE,
         maxYs (getSubBlockPositions v 0 0) + CUBE_SIZE) := by decide

theorem maxXs_le_of (l : List (ℕ × ℕ)) (B : ℕ) (hb : ∀ p ∈ l, p.1 ≤ B) :
    maxXs l ≤ B := by
  induction l with
  | nil => simp [maxXs]
  | cons x t ih =>
    rw [maxXs_cons]
    have hx := hb x (List.mem_cons_self x t)
    have ht := ih fun p hp => hb p (List.mem_cons_of_mem x hp)
    omega

theorem maxYs_le_of (l : List (ℕ × ℕ)) (B : ℕ) (hb : ∀ p ∈ l, p.2 ≤ B) :
    maxYs l ≤ B := by
  induction l with
  | nil => simp [maxYs]
  | cons x t ih =>
    rw [maxYs_cons]
    have hx := hb x (List.mem_cons_self x t)
    have ht := ih fun p hp => hb p (List.mem_cons_of_mem x hp)
    omega

theorem le_maxXs_of (l : List (ℕ × ℕ)) (p : ℕ × ℕ) (hp : p ∈ l) : p.1 ≤ maxXs l := by
  induction l with
  | nil => cases hp
  | cons x t ih =>
    rw [maxXs_cons]
    rcases List.mem_cons.1 hp with rfl | h
    · omega
    · have := ih h
      omega

theorem le_maxYs_of (l : List (ℕ × ℕ)) (p : ℕ × ℕ) (hp : p ∈ l) : p.2 ≤ maxYs l := by
  induction l with
  | nil => cases hp
  | cons x t ih =>
    rw [maxYs_cons]
    rcases List.mem_cons.1 hp with rfl | h
    · omega
    · have := ih h
      omega

/-- The largest x coordinate of a loop-generated position list is the best
bound attained by some loop index. -/
theorem maxXs_range_map_eq (n : ℕ) (fx fy : ℕ → ℕ) (B : ℕ)
    (hb : ∀ i < n, fx i ≤ B) (i₀ : ℕ) (hi₀ : i₀ < n) (hB : fx i₀ = B) :
    maxXs ((List.range n).map fun i => (fx i, fy i)) = B := by
  apply le_antisymm
  · apply maxXs_le_of
    intro p hp
    obtain ⟨i, hi, rfl⟩ := List.mem_map.1 hp
    simpa using hb i (List.mem_range.1 hi)
  · have hp : (fx i₀, fy i₀) ∈ (List.range n).map (fun i => (fx i, fy i)) :=
      List.mem_map.2 ⟨i₀, List.mem_range.2 hi₀, rfl⟩
    simpa [hB] using le_maxXs_of _ _ hp

/-- The largest y coordinate of a loop-generated position list is the best
bound attained by some loop index. -/
theorem maxYs_range_map_eq (n : ℕ) (fx fy : ℕ → ℕ) (B : ℕ)
    (hb : ∀ i < n, fy i ≤ B) (i₀ : ℕ) (hi₀ : i₀ < n) (hB : fy i₀ = B) :
    maxYs ((List.range n).map fun i => (fx i, fy i)) = B := by
  apply le_antisymm
  · apply maxYs_le_of
    intro p hp
    obtain ⟨i, hi, rfl⟩ := List.mem_map.1 hp
    simpa using hb i (List.mem_range.1 hi)
  · have hp : (fx i₀, fy i₀) ∈ (List.range n).map (fun i => (fx i, fy i)) :=
      List.mem_map.2 ⟨i₀, List.mem_range.2 hi₀, rfl⟩
    simpa [hB] using le_maxYs_of _ _ hp

/-- Bounding box of the hundreds-square cubes, for 1 ≤ hundreds ≤ 9: width
is `hundredCols * 502 - 4`, height is `hundredRows * 502 - 4`.  The widest
cube sits in the last hundred-square column (loop index (cols−1)·100 + 9),
the lowest cube is produced by loop index 0. -/
theorem hundredsCubePositions_bbox :
    ∀ h : ℕ, h < 10 → 0 < h →
      maxXs (hundredsCubePositions h) + CUBE_SIZE = hundredColsOf h * 502 - CUBE_GAP * 2 ∧
      maxYs (hundredsCubePositions h) + CUBE_SIZE =
        (h + hundredColsOf h - 1) / hundredColsOf h * 502 - CUBE_GAP * 2 := by
  intro h h10 h1
  have hC : 1 ≤ hundredColsOf h ∧ hundredColsOf h ≤ 3 ∧ hundredColsOf h ≤ h := by
    unfold hundredColsOf
    split_ifs <;> omega
  have hCpos : 0 < hundredColsOf h := by omega
  have hR1 : 1 ≤ (h + hundredColsOf h - 1) / hundredColsOf h := by
    rw [Nat.one_le_div_iff hCpos]
    omega
  simp only [hundredsCubePositions, CUBE_SIZE, CUBE_GAP]
  constructor
  · rw [maxXs_range_map_eq (h * 100) _ _ ((hundredColsOf h - 1) * 502 + 450) ?hbx
      ((hundredColsOf h - 1) * 100 + 9) (by omega) ?hax]
    · omega
    case hbx =>
      intro i hi
      have m1 : i / 100 % hundredColsOf h < hundredColsOf h := Nat.mod_lt _ hCpos
      generalize i / 100 % hundredColsOf h = q at m1 ⊢
      have m2 : i % 100 % 10 < 10 := Nat.mod_lt _ (by norm_num)
      generalize i % 100 % 10 = r at m2 ⊢
      omega
    case hax =>
      have e1 : ((hundredColsOf h - 1) * 100 + 9) / 100 = hundredColsOf h - 1 := by omega
      have e2 : ((hundredColsOf h - 1) * 100 + 9) % 100 = 9 := by omega
      rw [e1, e2, Nat.mod_eq_of_lt (by omega : hundredColsOf h - 1 < hundredColsOf h)]
  · rw [maxYs_range_map_eq (h * 100) _ _
      (((h + hundredColsOf h - 1) / hundredColsOf h - 1) * 502 + 450) ?hby 0 (by omega) ?hay]
    · generalize (h + hundredColsOf h - 1) / hundredColsOf h = R at hR1 ⊢
      omega
    case hby =>
      intro i hi
      have m2 : i % 100 / 10 ≤ 9 := by omega
      generalize (h + hundredColsOf h - 1) / hundredColsOf h = R
      generalize i / 100 / hundredColsOf h = q
      generalize i % 100 / 10 = r at m2 ⊢
      omega
    case hay =>
      simp only [Nat.zero_div, Nat.zero_mod]
      generalize (h + hundredColsOf h - 1) / hundredColsOf h = R
      omega

/-- Crude bounds on the hundreds grid shape, for 1 ≤ hundreds ≤ 9. -/
theorem hundredColsOf_bounds :
    ∀ h : ℕ, h < 10 → 0 < h →
      1 ≤ hundredColsOf h ∧ hundredColsOf h ≤ 3 ∧
      1 ≤ (h + hundredColsOf h - 1) / hundredColsOf h ∧
      (h + hundredColsOf h - 1) / hundredColsOf h ≤ 9 := by decide

/-- C9: for every integer v with 0 ≤ v < 1000, the size returned by
getBlockDimensions v equals the tight bounding box of the positions returned
by getCubePositions v — width = (maximum cube x) + CUBE_SIZE and height =
(maximum cube y) + CUBE_SIZE — and (0, 0) when v = 0; so the collision box
used by the store always matches the rendered cube arrangement. -/
theorem getBlockDimensions_eq_bbox (v : ℕ) (hv : v < 1000) :
    (v = 0 → getBlockDimensions v = (0, 0)) ∧
    (0 < v → getBlockDimensions v =
      (maxXs (getCubePositions v) + CUBE_SIZE, maxYs (getCubePositions v) + CUBE_SIZE)) := by
  constructor
  · rintro rfl; rfl
  · intro hpos
    by_cases h1 : v < 100
    · simp only [getBlockDimensions, getCubePositions, if_pos h1]
      exact getSubBlockDimensions_eq_bbox v h1 hpos
    · push_neg at h1
      have hh9 : v / 100 < 10 := by omega
      have hh1 : 0 < v / 100 := by omega
      obtain ⟨HX, HY⟩ := hundredsCubePositions_bbox (v / 100) hh9 hh1
      obtain ⟨hc1, hc3, hr1, hr9⟩ := hundredColsOf_bounds (v / 100) hh9 hh1
      simp only [getBlockDimensions, getCubePositions, if_neg (not_lt.2 h1),
        CUBE_SIZE, CUBE_GAP] at *
      by_cases hr : 0 < v % 100
      · rw [if_pos hr, if_pos hr]
        have hne : getSubBlockPositions (v % 100) 0 0 ≠ [] := by
          have := getSubBlockPositions_length (v % 100) 0 0
          intro hcon
          rw [hcon] at this
          simp at this
          omega
        rw [maxXs_append, maxYs_append, getSubBlockPositions_translate,
          maxXs_map_translate _ _ _ hne, maxYs_map_translate _ _ _ hne]
        have hsub := getSubBlockDimensions_eq_bbox (v % 100) (by omega) hr
        simp only [CUBE_SIZE] at hsub
        rw [hsub]
        simp only [Prod.mk.injEq]
        norm_num at HX HY ⊢
        constructor <;> omega
      · rw [if_neg hr, if_neg hr]
        simp only [Prod.mk.injEq]
        norm_num at HX HY ⊢
        constructor <;> omega

/-- Witness for C9 at v = 135. -/
theorem getBlockDimensions_eq_bbox_witness :
    (135 : ℕ) < 1000 ∧ getBlockDimensions 135 =
      (maxXs (getCubePositions 135) + CUBE_SIZE, maxYs (getCubePositions 135) + CUBE_SIZE) :=
  ⟨by decide, (getBlockDimensions_eq_bbox 135 (by decide)).2 (by decide)⟩

/-! ## C7: placement of the remainder sub-layout for 100 ≤ v ≤ 999 -/

/-- C7, evaluated at the failing input v = 101: the hundreds area occupies
local y coordinates 0 through 450 + 48 = 498, while the single remainder
cube is pushed at local y = 0 (x = 506), so its bottom edge is at 48, not at
the hundreds-area bottom edge 498: the remainder sub-layout is top-aligned,
not bottom-aligned as the claim (and the comment inside the source of
getCubePositions itself, "Align remainder to bottom of the hundreds area")
requires. -/
theorem getCubePositions_101_remainder_top_aligned :
    maxYs ((getCubePositions 101).take 100) + CUBE_SIZE = 498 ∧
    (getCubePositions 101).drop 100 = [(506, 0)] ∧
    0 + CUBE_SIZE ≠ 498 := by decide

/-! ## Color assigner (types module and NumberBlock.tsx)

The TS record lookups `NUMBERBLOCK_COLORS[d]` and `PALE_COLORS[d]` can yield
`undefined`; they are embedded as `Option String`-valued tables, and the JS
fallback idiom `table[d] || fallback` becomes `(table d).getD fallback`.  A
path of `getCubeColor` that returns a possibly-undefined lookup without a
fallback therefore has type `Option String`, and C8 asserts the result is
always `some`. -/

/-- Numberblocks official color palette, keys 1 through 10. -/
def NUMBERBLOCK_COLORS : ℕ → Option String
  | 1 => some "#FF0000"
  | 2 => some "#FF8C00"
  | 3 => some "#FFD700"
  | 4 => some "#00CC00"
  | 5 => some "#00BFFF"
  | 6 => some "#4B0082"
  | 7 => some "#8B00FF"
  | 8 => some "#FF00FF"
  | 9 => some "#808080"
  | 10 => some "#FFFFFF"
  | _ => none

/-- Transcription of `getNumberBlockColor`: for value ≤ 10 the direct palette
entry, above 10 the ones-digit entry with the JS `value % 10 || 10` idiom. -/
def getNumberBlockColor (value : ℕ) : Option String :=
  if value ≤ 10 then NUMBERBLOCK_COLORS value
  else NUMBERBLOCK_COLORS (if value % 10 = 0 then 10 else value % 10)

/-- Gray gradient colors for 9 (lightest at bottom, darkest at top). -/
def NINE_GRAY_COLORS : List String :=
  ["#D0D0D0", "#D0D0D0", "#D0D0D0", "#A0A0A0", "#A0A0A0", "#A0A0A0",
   "#606060", "#606060", "#606060"]

/-- Pale versions of each Numberblock color, keys 1 through 9. -/
def PALE_COLORS : ℕ → Option String
  | 1 => some "#FFFFFF"
  | 2 => some "#FFD4A8"
  | 3 => some "#FFF4B8"
  | 4 => some "#B8F0B8"
  | 5 => some "#B8E8FF"
  | 6 => some "#C4A8D0"
  | 7 => some "#D8B8FF"
  | 8 => some "#FFB8FF"
  | 9 => some "#C8C8C8"
  | _ => none

/-- Transcription of `getDigitColor`: color for one cube of a digit group,
handling special cases (7 = rainbow, 9 = gray gradient). -/
def getDigitColor (digit indexWithinDigit : ℕ) (isPale : Bool) : Option String :=
  if digit = 7 then
    let color := indexWithinDigit + 1
    if isPale then some ((PALE_COLORS color).getD "#FFFFFF")
    else getNumberBlockColor color
  else if digit = 9 && !isPale then
    some (NINE_GRAY_COLORS.getD indexWithinDigit "#808080")
  else if isPale then some ((PALE_COLORS digit).getD "#FFFFFF")
  else getNumberBlockColor digit

/-- Transcription of `getCubeColor` in NumberBlock.tsx: fill color of cube
number `cubeIndex` of a block of value `blockValue` (the `_totalCubes`
parameter of the TS function is unused there and dropped here). -/
def getCubeColor (blockValue cubeIndex : ℕ) : Option String :=
  if blockValue ≤ 10 then
    if blockValue = 7 then getNumberBlockColor (cubeIndex + 1)
    else if blockValue = 9 then some (NINE_GRAY_COLORS.getD cubeIndex "#808080")
    else getNumberBlockColor blockValue
  else if blockValue < 100 then
    let tensDigit := blockValue / 10
    let tensCount := tensDigit * 10
    let units := blockValue % 10
    if cubeIndex < tensCount then
      if tensDigit = 7 then some ((PALE_COLORS (cubeIndex / 10 + 1)).getD "#FFFFFF")
      else some ((PALE_COLORS tensDigit).getD "#FFFFFF")
    else getDigitColor units (cubeIndex - tensCount) false
  else if blockValue < 1000 then
    let hundredsDigit := blockValue / 100
    let hundredsCount := hundredsDigit * 100
    let tensDigit := blockValue % 100 / 10
    let tensCount := tensDigit * 10
    let units := blockValue % 10
    if cubeIndex < hundredsCount then
      if hundredsDigit = 7 then getNumberBlockColor (cubeIndex / 100 + 1)
      else getNumberBlockColor hundredsDigit
    else if cubeIndex < hundredsCount + tensCount then
      if tensDigit = 7 then some ((PALE_COLORS ((cubeIndex - hundredsCount) / 10 + 1)).getD "#FFFFFF")
      else some ((PALE_COLORS tensDigit).getD "#FFFFFF")
    else getDigitColor units (cubeIndex - hundredsCount - tensCount) false
  else
    let thousandsDigit := blockValue / 1000
    let thousandsCount := thousandsDigit * 1000
    let hundredsDigit := blockValue % 1000 / 100
    let hundredsCount := hundredsDigit * 100
    let tensDigit := blockValue % 100 / 10
    let tensCount := tensDigit * 10
    let units := blockValue % 10
    if cubeIndex < thousandsCount then
      if thousandsDigit = 7 then some ((PALE_COLORS (cubeIndex / 1000 + 1)).getD "#FFFFFF")
      else some ((PALE_COLORS thousandsDigit).getD "#FFFFFF")
    else if cubeIndex < thousandsCount + hundredsCount then
      if hundredsDigit = 7 then getNumberBlockColor ((cubeIndex - thousandsCount) / 100 + 1)
      else getNumberBlockColor hundredsDigit
    else if cubeIndex < thousandsCount + hundredsCount + tensCount then
      if tensDigit = 7 then some ((PALE_COLORS ((cubeIndex - thousandsCount - hundredsCount) / 10 + 1)).getD "#FFFFFF")
      else some ((PALE_COLORS tensDigit).getD "#FFFFFF")
    else getDigitColor units (cubeIndex - thousandsCount - hundredsCount - tensCount) false

/-! ## C8: total coverage of the color assigner -/

/-- The palette is defined for 1 through 10. -/
theorem NUMBERBLOCK_COLORS_isSome : ∀ d : ℕ, 1 ≤ d → d ≤ 10 →
    (NUMBERBLOCK_COLORS d).isSome := by decide

/-- getNumberBlockColor is defined for 1 through 10. -/
theorem getNumberBlockColor_isSome (d : ℕ) (h1 : 1 ≤ d) (h10 : d ≤ 10) :
    (getNumberBlockColor d).isSome := by
  unfold getNumberBlockColor
  rw [if_pos h10]
  exact NUMBERBLOCK_COLORS_isSome d h1 h10

/-- getDigitColor in primary mode is defined whenever the in-group index is
below the digit (the only indices a correct layout produces). -/
theorem getDigitColor_isSome (d i : ℕ) (h1 : 1 ≤ d) (h9 : d ≤ 9) (hi : i < d) :
    (getDigitColor d i false).isSome := by
  interval_cases d <;> interval_cases i <;> decide

/-- C8: for every value v within the documented four-place-group range
(v ≤ 9999) and every cube index produced by the layout for v, the color
assigner returns a defined fill color string (never undefined), even though
the digit-to-color palette is only defined for digits 1 through 10 and a
group digit may be 0. -/
theorem color_total_coverage (v i : ℕ) (_hv : v ≤ 9999)
    (hi : i < (getCubePositions v).length) : (getCubeColor v i).isSome := by
  rw [getCubePositions_length] at hi
  simp only [getCubeColor]
  by_cases h10 : v ≤ 10
  · rw [if_pos h10]
    by_cases h7 : v = 7
    · rw [if_pos h7]
      subst h7
      exact getNumberBlockColor_isSome (i + 1) (by omega) (by omega)
    · rw [if_neg h7]
      by_cases h9 : v = 9
      · rw [if_pos h9]; simp
      · rw [if_neg h9]
        exact getNumberBlockColor_isSome v (by omega) h10
  · rw [if_neg h10]
    by_cases h100 : v < 100
    · rw [if_pos h100]
      by_cases ht : i < v / 10 * 10
      · rw [if_pos ht]
        split_ifs <;> simp
      · rw [if_neg ht]
        exact getDigitColor_isSome (v % 10) (i - v / 10 * 10) (by omega) (by omega) (by omega)
    · rw [if_neg h100]
      by_cases h1000 : v < 1000
      · rw [if_pos h1000]
        by_cases hh : i < v / 100 * 100
        · rw [if_pos hh]
          by_cases h7 : v / 100 = 7
          · rw [if_pos h7]
            exact getNumberBlockColor_isSome (i / 100 + 1) (by omega) (by omega)
          · rw [if_neg h7]
            exact getNumberBlockColor_isSome (v / 100) (by omega) (by omega)
        · rw [if_neg hh]
          by_cases htc : i < v / 100 * 100 + v % 100 / 10 * 10
          · rw [if_pos htc]
            split_ifs <;> simp
          · rw [if_neg htc]
            exact getDigitColor_isSome (v % 10) (i - v / 100 * 100 - v % 100 / 10 * 10)
              (by omega) (by omega) (by omega)
      · rw [if_neg h1000]
        by_cases hth : i < v / 1000 * 1000
        · rw [if_pos hth]
          split_ifs <;> simp
        · rw [if_neg hth]
          by_cases hhc : i < v / 1000 * 1000 + v % 1000 / 100 * 100
          · rw [if_pos hhc]
            by_cases h7 : v % 1000 / 100 = 7
            · rw [if_pos h7]
              exact getNumberBlockColor_isSome ((i - v / 1000 * 1000) / 100 + 1)
                (by omega) (by omega)
            · rw [if_neg h7]
              exact getNumberBlockColor_isSome (v % 1000 / 100) (by omega) (by omega)
          · rw [if_neg hhc]
            by_cases htc : i < v / 1000 * 1000 + v % 1000 / 100 * 100 + v % 100 / 10 * 10
            · rw [if_pos htc]
              split_ifs <;> simp
            · rw [if_neg htc]
              exact getDigitColor_isSome (v % 10)
                (i - v / 1000 * 1000 - v % 1000 / 100 * 100 - v % 100 / 10 * 10)
                (by omega) (by omega) (by omega)

/-- Witness for C8 at v = 1234, i = 1233. -/
theorem color_total_coverage_witness :
    (1234 : ℕ) ≤ 9999 ∧ (1233 : ℕ) < (getCubePositions 1234).length ∧
    (getCubeColor 1234 1233).isSome :=
  have h1 : (1234 : ℕ) ≤ 9999 := by decide
  have h2 : (1233 : ℕ) < (getCubePositions 1234).length := by
    rw [getCubePositions_length]; decide
  ⟨h1, h2, color_total_coverage 1234 1233 h1 h2⟩

/-! ## Block store (useNumberBlocks.ts, latest revision)

Coordinates and block values are embedded as exact rationals: every
operation the TypeScript performs on them here (addition, subtraction,
halving, min / max, comparisons, Math.floor) is exact at these magnitudes
in IEEE doubles, and is mirrored exactly on `ℚ`.  Opaque generated string
ids are embedded as `ℕ`; each store operation that generates ids or reads
the clock or the window size receives them as explicit parameters. -/

/-- Position in 2D canvas space. -/
structure Position where
  x : ℚ
  y : ℚ
deriving DecidableEq

/-- Size dimensions. -/
structure Size where
  width : ℚ
  height : ℚ
deriving DecidableEq

/-- Bounding box for collision detection. -/
structure BoundingBox where
  x : ℚ
  y : ℚ
  width : ℚ
  height : ℚ
deriving DecidableEq

/-- NumberBlock entity of the store (the `NumberBlock` interface of the
types module). -/
structure NumberBlock where
  id : ℕ
  value : ℚ
  position : Position
  isDragging : Bool
  createdAt : ℤ
deriving DecidableEq

/-- Zero block entity of AppShell.tsx (just a "0" numeral, no cube grid). -/
structure ZeroBlock where
  id : ℕ
  position : Position
deriving DecidableEq

/-- The sub-block dimension computation re-embedded at the store value type
`ℚ` (the store applies `getBlockDimensions` to arbitrary stored values, which
the TS never restricts to integers): a verbatim second transcription of
`getSubBlockDimensions`, with `Math.floor` as `Int.floor` and
`Math.ceil` as `Int.ceil`. -/
def getSubBlockDimensionsQ (value : ℚ) : Size :=
  if value = 0 then ⟨0, 0⟩
  else if value = 4 then ⟨CUBE_SIZE * 2 + CUBE_GAP, CUBE_SIZE * 2 + CUBE_GAP⟩
  else if value = 7 then ⟨CUBE_SIZE, value * CUBE_SIZE + (value - 1) * CUBE_GAP⟩
  else if value = 9 then ⟨CUBE_SIZE * 3 + CUBE_GAP * 2, CUBE_SIZE * 3 + CUBE_GAP * 2⟩
  else if value ≤ 5 then ⟨CUBE_SIZE, value * CUBE_SIZE + (value - 1) * CUBE_GAP⟩
  else
    let cols : ℤ := if 30 ≤ value then ⌊value / 10⌋ else 2
    let rows : ℤ := ⌈value / (cols : ℚ)⌉
    ⟨(cols : ℚ) * CUBE_SIZE + ((cols : ℚ) - 1) * CUBE_GAP,
     (rows : ℚ) * CUBE_SIZE + ((rows : ℚ) - 1) * CUBE_GAP⟩

/-- The block dimension computation re-embedded at the store value type `ℚ`:
a verbatim second transcription of `getBlockDimensions`.  In the 100-and-up
branch `value` is ≥ 100, where the JS remainder `value % 100` equals
`value - 100 * Math.floor(value / 100)`. -/
def getBlockDimensionsQ (value : ℚ) : Size :=
  if value < 100 then getSubBlockDimensionsQ value
  else
    let hundreds : ℤ := ⌊value / 100⌋
    let tensAndUnits : ℚ := value - 100 * (hundreds : ℚ)
    let hundredSquareSpacing : ℚ := 10 * CUBE_SIZE + 9 * CUBE_GAP + CUBE_GAP * 2
    let hundredCols : ℤ := if 7 ≤ hundreds then 3 else if 4 ≤ hundreds then 2 else 1
    let hundredRows : ℤ := ⌈(hundreds : ℚ) / (hundredCols : ℚ)⌉
    let hundredsWidth := (hundredCols : ℚ) * hundredSquareSpacing - CUBE_GAP * 2
    let hundredsHeight := (hundredRows : ℚ) * hundredSquareSpacing - CUBE_GAP * 2
    let remainderDims := getSubBlockDimensionsQ tensAndUnits
    if 0 < tensAndUnits then
      ⟨hundredsWidth + CUBE_GAP * 4 + remainderDims.width,
       max hundredsHeight remainderDims.height⟩
    else ⟨hundredsWidth, hundredsHeight⟩

/-- Transcription of `getBoxAtPosition` in useNumberBlocks.ts. -/
def getBoxAtPosition (value : ℚ) (position : Position) : BoundingBox :=
  let dims := getBlockDimensionsQ value
  ⟨position.x, position.y, dims.width, dims.height⟩

/-- Transcription of `boxesOverlap` in useNumberBlocks.ts: strict overlap on
both axes; edge-touching does not count. -/
def boxesOverlap (a b : BoundingBox) : Bool :=
  decide (a.x < b.x + b.width) && decide (a.x + a.width > b.x) &&
  decide (a.y < b.y + b.height) && decide (a.y + a.height > b.y)

/-- Transcription of `addBlock`: append a new block with the given value and
position; `generateId()` and `Date.now()` are the parameters `newId` and
`now`.  Returns the new id together with the new store, like the TS function
returns the id while updating the state. -/
def addBlock (newId : ℕ) (now : ℤ) (value : ℚ) (position : Position)
    (blocks : List NumberBlock) : ℕ × List NumberBlock :=
  (newId, blocks ++ [⟨newId, value, position, false, now⟩])

/-- Transcription of `removeBlock`: drop the block with the given id. -/
def removeBlock (blocks : List NumberBlock) (id : ℕ) : List NumberBlock :=
  blocks.filter fun b => b.id != id

/-- Transcription of `finalizeCombine` in useNumberBlocks.ts (drag-end merge
protocol).  `screenW`/`screenH` stand for `window.innerWidth` /
`window.innerHeight`, `newId` for `generateId()` and `now` for `Date.now()`.
The TS loop over `currentBlocks` that `continue`s on the dragged id and
`break`s at the first overlap is `List.find?` with the conjoined predicate.
Returns the TS boolean result together with the new store. -/
def finalizeCombine (screenW screenH : ℚ) (newId : ℕ) (now : ℤ)
    (blocks : List NumberBlock) (draggedId : ℕ) (draggedPos : Position) :
    Bool × List NumberBlock :=
  match blocks.find? (fun b => b.id == draggedId) with
  | none => (false, blocks)
  | some draggedBlock =>
    let draggedBox := getBoxAtPosition draggedBlock.value draggedPos
    match blocks.find? (fun b =>
        b.id != draggedId && boxesOverlap draggedBox (getBoxAtPosition b.value b.position)) with
    | none => (false, blocks)
    | some collidingBlock =>
      let newValue := draggedBlock.value + collidingBlock.value
      let collidingBox := getBoxAtPosition collidingBlock.value collidingBlock.position
      let newDims := getBlockDimensionsQ newValue
      let centerX := (draggedBox.x + draggedBox.width / 2 +
        collidingBox.x + collidingBox.width / 2) / 2
      let centerY := (draggedBox.y + draggedBox.height / 2 +
        collidingBox.y + collidingBox.height / 2) / 2
      let margin : ℚ := 10
      let topMargin : ℚ := 40
      let maxX := screenW - newDims.width - margin
      let maxY := screenH - newDims.height - margin
      let x := max margin (min (centerX - newDims.width / 2) maxX)
      let y := max topMargin (min (centerY - newDims.height / 2) maxY)
      (true,
       (blocks.filter fun b => b.id != draggedId && b.id != collidingBlock.id) ++
         [⟨newId, newValue, ⟨x, y⟩, false, now⟩])

/-- Transcription of `splitBlock` in useNumberBlocks.ts: split a block into
(original - subtractValue) and (subtractValue).  `newId1`/`newId2` stand for
the two `generateId()` calls and `now` for `Date.now()`; the `skipSound`
parameter only selects a sound and does not affect the state transition. -/
def splitBlock (screenW screenH : ℚ) (newId1 newId2 : ℕ) (now : ℤ)
    (blocks : List NumberBlock) (id : ℕ) (subtractValue : ℚ) :
    Bool × List NumberBlock :=
  match blocks.find? (fun b => b.id == id) with
  | none => (false, blocks)
  | some block =>
    if subtractValue ≤ 0 ∨ block.value ≤ subtractValue then (false, blocks)
    else
      let remainingValue := block.value - subtractValue
      let dims1 := getBlockDimensionsQ remainingValue
      let dims2 := getBlockDimensionsQ subtractValue
      let margin : ℚ := 10
      let topMargin : ℚ := 40
      let clampX : ℚ → ℚ → ℚ := fun x width =>
        max margin (min x (max margin (screenW - width - margin)))
      let clampY : ℚ → ℚ → ℚ := fun y height =>
        max topMargin (min y (max topMargin (screenH - height - margin)))
      let totalWidth := dims1.width + dims2.width + 20
      let totalHeight := dims1.height + dims2.height + 20
      let canFitHorizontally := totalWidth ≤ screenW - margin * 2
      let canFitVertically := totalHeight ≤ screenH - topMargin - margin
      let positions : Position × Position :=
        if canFitHorizontally then
          let pos1 : Position := ⟨clampX (block.position.x - 30) dims1.width,
            clampY block.position.y dims1.height⟩
          let minX2 := pos1.x + dims1.width + 10
          (pos1, ⟨clampX (max minX2 (block.position.x + dims1.width + 10)) dims2.width,
            clampY block.position.y dims2.height⟩)
        else if canFitVertically then
          let pos1 : Position := ⟨clampX block.position.x dims1.width,
            clampY block.position.y dims1.height⟩
          let minY2 := pos1.y + dims1.height + 10
          (pos1, ⟨clampX block.position.x dims2.width,
            clampY (max minY2 (block.position.y + dims1.height + 20)) dims2.height⟩)
        else
          (⟨margin, topMargin⟩,
           ⟨clampX (screenW - dims2.width - margin) dims2.width,
            clampY (screenH - dims2.height - margin) dims2.height⟩)
      (true,
       (blocks.filter fun b => b.id != id) ++
         [⟨newId1, remainingValue, positions.1, false, now⟩,
          ⟨newId2, subtractValue, positions.2, false, now⟩])

/-- Sum of the values of all blocks in the store. -/
def sumValues (blocks : List NumberBlock) : ℚ := (blocks.map (·.value)).sum

/-! ## Helper lemmas: removing blocks by id under unique ids -/

theorem sumValues_append (l₁ l₂ : List NumberBlock) :
    sumValues (l₁ ++ l₂) = sumValues l₁ + sumValues l₂ := by
  simp [sumValues]

theorem filter_bne_of_not_mem (t : List NumberBlock) (i : ℕ) (j : NumberBlock → Bool)
    (h : i ∉ t.map (·.id)) :
    (t.filter fun b => b.id != i && j b) = t.filter j := by
  apply List.filter_congr
  intro b hb
  have hbi : b.id ≠ i := fun he => h (he ▸ List.mem_map_of_mem (·.id) hb)
  simp [hbi]

theorem mem_tail_of_id_ne (x c : NumberBlock) (t : List NumberBlock)
    (hc : c ∈ x :: t) (hne : x.id ≠ c.id) : c ∈ t := by
  rcases List.mem_cons.1 hc with h | h
  · exact absurd (congrArg (·.id) h).symm hne
  · exact h

theorem eq_head_of_id_eq (x c : NumberBlock) (t : List NumberBlock)
    (hc : c ∈ x :: t) (hnd : x.id ∉ t.map (·.id)) (he : x.id = c.id) : c = x := by
  rcases List.mem_cons.1 hc with h | h
  · exact h
  · have hm : c.id ∈ t.map (·.id) := List.mem_map_of_mem (·.id) h
    rw [← he] at hm
    exact absurd hm hnd

/-- Removing the one block with a given id from a store with unique ids:
effect on the value sum and on the length. -/
theorem filter_ne_single (l : List NumberBlock) (c : NumberBlock)
    (hnd : (l.map (·.id)).Nodup) (hc : c ∈ l) :
    sumValues (l.filter fun b => b.id != c.id) = sumValues l - c.value ∧
    (l.filter fun b => b.id != c.id).length + 1 = l.length := by
  induction l with
  | nil => cases hc
  | cons a t ih =>
    rw [List.map_cons, List.nodup_cons] at hnd
    by_cases hac : a.id = c.id
    · have hca : c = a := eq_head_of_id_eq a c t hc hnd.1 hac
      subst hca
      have hft : (t.filter fun b => b.id != c.id) = t := by
        apply List.filter_eq_self.2
        intro b hb
        have hbc : b.id ≠ c.id := by
          intro he
          exact hnd.1 (he ▸ List.mem_map_of_mem (·.id) hb)
        simp [hbc]
      refine ⟨?_, ?_⟩
      · simp only [List.filter_cons, bne_self_eq_false, Bool.false_eq_true, if_false, hft,
          sumValues, List.map_cons, List.sum_cons]
        ring
      · simp only [List.filter_cons, bne_self_eq_false, Bool.false_eq_true, if_false, hft,
          List.length_cons]
    · have hct : c ∈ t := mem_tail_of_id_ne a c t hc hac
      obtain ⟨ihs, ihl⟩ := ih hnd.2 hct
      have hkeep : (a.id != c.id) = true := by simp [hac]
      refine ⟨?_, ?_⟩
      · simp only [List.filter_cons, hkeep, if_true, sumValues, List.map_cons,
          List.sum_cons] at ihs ⊢
        rw [ihs]
        ring
      · simp only [List.filter_cons, hkeep, if_true, List.length_cons] at ihl ⊢
        omega

/-- Removing the two blocks with two distinct given ids from a store with
unique ids: effect on the value sum and on the length. -/
theorem filter_ne_pair (l : List NumberBlock) (a c : NumberBlock)
    (hnd : (l.map (·.id)).Nodup) (ha : a ∈ l) (hc : c ∈ l) (hne : a.id ≠ c.id) :
    sumValues (l.filter fun b => b.id != a.id && b.id != c.id) =
      sumValues l - a.value - c.value ∧
    (l.filter fun b => b.id != a.id && b.id != c.id).length + 2 = l.length := by
  induction l with
  | nil => cases ha
  | cons x t ih =>
    rw [List.map_cons, List.nodup_cons] at hnd
    by_cases hxa : x.id = a.id
    · have hax : a = x := eq_head_of_id_eq x a t ha hnd.1 hxa
      subst hax
      have hct : c ∈ t := mem_tail_of_id_ne a c t hc (fun he => hne he)
      have hrest : (t.filter fun b => b.id != a.id && b.id != c.id) =
          t.filter fun b => b.id != c.id :=
        filter_bne_of_not_mem t a.id _ hnd.1
      obtain ⟨hs1, hl1⟩ := filter_ne_single t c hnd.2 hct
      have hdrop : (a.id != a.id && a.id != c.id) = false := by simp
      refine ⟨?_, ?_⟩
      · simp only [List.filter_cons, hdrop, Bool.false_eq_true, if_false, hrest,
          sumValues, List.map_cons, List.sum_cons] at hs1 ⊢
        rw [hs1]
        ring
      · simp only [List.filter_cons, hdrop, Bool.false_eq_true, if_false, hrest,
          List.length_cons] at hl1 ⊢
        omega
    · by_cases hxc : x.id = c.id
      · have hcx : c = x := eq_head_of_id_eq x c t hc hnd.1 hxc
        subst hcx
        have hat : a ∈ t := mem_tail_of_id_ne c a t ha (fun he => hne he.symm)
        have hrest : (t.filter fun b => b.id != a.id && b.id != c.id) =
            t.filter fun b => b.id != a.id := by
          apply List.filter_congr
          intro b hb
          have hbc : b.id ≠ c.id := by
            intro he
            exact hnd.1 (he ▸ List.mem_map_of_mem (·.id) hb)
          simp [hbc]
        obtain ⟨hs1, hl1⟩ := filter_ne_single t a hnd.2 hat
        have hdrop : (c.id != a.id && c.id != c.id) = false := by simp
        refine ⟨?_, ?_⟩
        · simp only [List.filter_cons, hdrop, Bool.false_eq_true, if_false, hrest,
            sumValues, List.map_cons, List.sum_cons] at hs1 ⊢
          rw [hs1]
          ring
        · simp only [List.filter_cons, hdrop, Bool.false_eq_true, if_false, hrest,
            List.length_cons] at hl1 ⊢
          omega
      · have hat : a ∈ t := mem_tail_of_id_ne x a t ha hxa
        have hct : c ∈ t := mem_tail_of_id_ne x c t hc hxc
        obtain ⟨ihs, ihl⟩ := ih hnd.2 hat hct
        have hkeep : (x.id != a.id && x.id != c.id) = true := by simp [hxa, hxc]
        refine ⟨?_, ?_⟩
        · simp only [List.filter_cons, hkeep, if_true, sumValues, List.map_cons,
            List.sum_cons] at ihs ⊢
          rw [ihs]
          ring
        · simp only [List.filter_cons, hkeep, if_true, List.length_cons] at ihl ⊢
          omega

/-! ## C3: the subtract-split protocol -/

/-- C3: splitBlock(id, subtractAmount) returns false and performs no state
change whenever the id is absent from the store, or subtractAmount ≤ 0, or
subtractAmount ≥ the source block value; in every other case it returns
true, removes the source block, and appends exactly two new blocks with
values (original value − subtractAmount) and subtractAmount. -/
theorem splitBlock_spec (sw sh : ℚ) (nid1 nid2 : ℕ) (now : ℤ)
    (blocks : List NumberBlock) (id : ℕ) (sub : ℚ)
    (hnd : (blocks.map (·.id)).Nodup) :
    (blocks.find? (fun b => b.id == id) = none →
      splitBlock sw sh nid1 nid2 now blocks id sub = (false, blocks)) ∧
    (∀ block, blocks.find? (fun b => b.id == id) = some block →
      sub ≤ 0 ∨ block.value ≤ sub →
      splitBlock sw sh nid1 nid2 now blocks id sub = (false, blocks)) ∧
    (∀ block, blocks.find? (fun b => b.id == id) = some block →
      0 < sub → sub < block.value →
      ∃ p1 p2 : Position,
        splitBlock sw sh nid1 nid2 now blocks id sub =
          (true, (blocks.filter fun b => b.id != id) ++
            [⟨nid1, block.value - sub, p1, false, now⟩,
             ⟨nid2, sub, p2, false, now⟩]) ∧
        (splitBlock sw sh nid1 nid2 now blocks id sub).2.length = blocks.length + 1) := by
  refine ⟨?_, ?_, ?_⟩
  · intro hnone
    simp only [splitBlock, hnone]
  · intro block hfd hbad
    simp only [splitBlock, hfd]
    rw [if_pos hbad]
  · intro block hfd hpos hlt
    have hbid : block.id = id := by
      have := List.find?_some hfd
      simpa using this
    have hmem : block ∈ blocks := List.mem_of_find?_eq_some hfd
    have hnotbad : ¬(sub ≤ 0 ∨ block.value ≤ sub) := by
      push_neg
      exact ⟨hpos, hlt⟩
    simp only [splitBlock, hfd]
    rw [if_neg hnotbad]
    refine ⟨_, _, rfl, ?_⟩
    obtain ⟨-, hlen⟩ := filter_ne_single blocks block hnd hmem
    rw [← hbid] at *
    simp only [List.length_append, List.length_cons, List.length_nil]
    omega

/-! ## C2: conservation of the total value across merges and splits -/

/-- C2: every successful finalizeCombine and every successful splitBlock
leaves the sum of all NumberBlock values in the store unchanged: a merge
replaces blocks of values a and b with one block of value a+b, and a
subtract-split replaces a block of value v with two blocks of values v−s
and s. -/
theorem merge_split_conservation (sw sh : ℚ) (nid nid1 nid2 : ℕ) (now : ℤ)
    (blocks : List NumberBlock) (draggedId : ℕ) (pos : Position) (id : ℕ) (sub : ℚ)
    (hnd : (blocks.map (·.id)).Nodup) :
    (∀ s, finalizeCombine sw sh nid now blocks draggedId pos = (true, s) →
      sumValues s = sumValues blocks) ∧
    (∀ s, splitBlock sw sh nid1 nid2 now blocks id sub = (true, s) →
      sumValues s = sumValues blocks) := by
  constructor
  · intro s hs
    simp only [finalizeCombine] at hs
    split at hs
    · simp at hs
    · rename_i a hfd
      have haid : a.id = draggedId := by
        have := List.find?_some hfd
        simpa using this
      have hamem : a ∈ blocks := List.mem_of_find?_eq_some hfd
      split at hs
      · simp at hs
      · rename_i c hfc
        have hcmem : c ∈ blocks := List.mem_of_find?_eq_some hfc
        have hcne : c.id ≠ draggedId := by
          have := List.find?_some hfc
          rw [Bool.and_eq_true] at this
          simpa using this.1
        have hane : a.id ≠ c.id := by
          rw [haid]
          exact fun he => hcne he.symm
        simp only [Prod.mk.injEq, true_and] at hs
        subst hs
        obtain ⟨hsum, -⟩ := filter_ne_pair blocks a c hnd hamem hcmem hane
        rw [← haid] at *
        rw [sumValues_append, hsum]
        simp [sumValues]
  · intro s hs
    simp only [splitBlock] at hs
    split at hs
    · simp at hs
    · rename_i block hfd
      split at hs
      · simp at hs
      · have hbid : block.id = id := by
          have := List.find?_some hfd
          simpa using this
        have hmem : block ∈ blocks := List.mem_of_find?_eq_some hfd
        simp only [Prod.mk.injEq, true_and] at hs
        subst hs
        obtain ⟨hsum, -⟩ := filter_ne_single blocks block hnd hmem
        rw [← hbid] at *
        rw [sumValues_append, hsum]
        simp [sumValues]

/-! ## C1: the drag-end merge protocol -/

/-- C1: for every store state in which the dragged block exists and its
bounding box at the final drop position strictly overlaps the bounding box
of at least one other block, finalizeCombine(draggedId, finalPosition)
returns true, removes both the dragged block and the first overlapping
block in store order (the one found by the store-order scan), and appends
exactly one new block whose value equals the sum of the two removed blocks
values; no other block is added or removed (the remaining blocks are exactly
the filter of the old store, and the store shrinks by one). -/
theorem finalizeCombine_merges (sw sh : ℚ) (nid : ℕ) (now : ℤ)
    (blocks : List NumberBlock) (draggedId : ℕ) (pos : Position)
    (hnd : (blocks.map (·.id)).Nodup)
    (a : NumberBlock) (hfd : blocks.find? (fun b => b.id == draggedId) = some a)
    (hov : ∃ b ∈ blocks, b.id ≠ draggedId ∧
      boxesOverlap (getBoxAtPosition a.value pos)
        (getBoxAtPosition b.value b.position) = true) :
    ∃ c : NumberBlock,
      blocks.find? (fun b => b.id != draggedId &&
        boxesOverlap (getBoxAtPosition a.value pos)
          (getBoxAtPosition b.value b.position)) = some c ∧
      c ∈ blocks ∧ c.id ≠ draggedId ∧
      (finalizeCombine sw sh nid now blocks draggedId pos).1 = true ∧
      (∃ p : Position, (finalizeCombine sw sh nid now blocks draggedId pos).2 =
        (blocks.filter fun b => b.id != draggedId && b.id != c.id) ++
          [⟨nid, a.value + c.value, p, false, now⟩]) ∧
      (finalizeCombine sw sh nid now blocks draggedId pos).2.length + 1 = blocks.length := by
  have hsome : (blocks.find? (fun b => b.id != draggedId &&
      boxesOverlap (getBoxAtPosition a.value pos)
        (getBoxAtPosition b.value b.position))).isSome := by
    apply List.find?_isSome.2
    obtain ⟨b, hbm, hbne, hbov⟩ := hov
    exact ⟨b, hbm, by simp [hbne, hbov]⟩
  obtain ⟨c, hfc⟩ := Option.isSome_iff_exists.1 hsome
  have hcmem : c ∈ blocks := List.mem_of_find?_eq_some hfc
  have hcp := List.find?_some hfc
  rw [Bool.and_eq_true] at hcp
  have hcne : c.id ≠ draggedId := by simpa using hcp.1
  have haid : a.id = draggedId := by
    have := List.find?_some hfd
    simpa using this
  have hamem : a ∈ blocks := List.mem_of_find?_eq_some hfd
  have hane : a.id ≠ c.id := by
    rw [haid]
    exact fun he => hcne he.symm
  obtain ⟨-, hlen⟩ := filter_ne_pair blocks a c hnd hamem hcmem hane
  refine ⟨c, hfc, hcmem, hcne, ?_, ?_, ?_⟩
  · simp only [finalizeCombine, hfd, hfc]
  · simp only [finalizeCombine, hfd, hfc]
    exact ⟨_, rfl⟩
  · simp only [finalizeCombine, hfd, hfc]
    rw [haid] at hlen
    simp only [List.length_append, List.length_cons, List.length_nil]
    omega

/-- Witness for C1: value 3 dragged at (100,100) onto value 5 at (100,100). -/
theorem finalizeCombine_merges_witness :
    (finalizeCombine 1920 1080 2 7
      [⟨0, 3, ⟨100, 100⟩, false, 0⟩, ⟨1, 5, ⟨100, 100⟩, false, 0⟩] 0 ⟨100, 100⟩).1 = true ∧
    (finalizeCombine 1920 1080 2 7
      [⟨0, 3, ⟨100, 100⟩, false, 0⟩, ⟨1, 5, ⟨100, 100⟩, false, 0⟩] 0 ⟨100, 100⟩).2.length + 1
      = 2 := by
  obtain ⟨c, -, -, -, h4, -, h6⟩ := finalizeCombine_merges 1920 1080 2 7
    [⟨0, 3, ⟨100, 100⟩, false, 0⟩, ⟨1, 5, ⟨100, 100⟩, false, 0⟩] 0 ⟨100, 100⟩
    (by decide) ⟨0, 3, ⟨100, 100⟩, false, 0⟩ rfl
    ⟨⟨1, 5, ⟨100, 100⟩, false, 0⟩, by simp, by decide,
      by norm_num [boxesOverlap, getBoxAtPosition, getBlockDimensionsQ,
        getSubBlockDimensionsQ, CUBE_SIZE, CUBE_GAP]⟩
  exact ⟨h4, by simpa using h6⟩

/-- Witness for C2: the merge of the C1 scenario preserves the value sum
(3 + 5 before, 8 after), obtained by instantiating the conservation theorem
at the fully evaluated transition. -/
theorem merge_split_conservation_witness :
    sumValues [⟨2, 8, ⟨75, 100⟩, false, 7⟩] =
      sumValues [⟨0, 3, ⟨100, 100⟩, false, 0⟩, ⟨1, 5, ⟨100, 100⟩, false, 0⟩] := by
  have hfin : finalizeCombine 1920 1080 2 7
      [⟨0, 3, ⟨100, 100⟩, false, 0⟩, ⟨1, 5, ⟨100, 100⟩, false, 0⟩] 0 ⟨100, 100⟩ =
      (true, [⟨2, 8, ⟨75, 100⟩, false, 7⟩]) := by
    norm_num [finalizeCombine, getBoxAtPosition, getBlockDimensionsQ, getSubBlockDimensionsQ,
      boxesOverlap, List.find?, List.filter, CUBE_SIZE, CUBE_GAP, max_def, min_def]
    simp
    norm_num [max_def, min_def]
  exact (merge_split_conservation 1920 1080 2 3 4 7
    [⟨0, 3, ⟨100, 100⟩, false, 0⟩, ⟨1, 5, ⟨100, 100⟩, false, 0⟩] 0 ⟨100, 100⟩ 0 1
    (by decide)).1 _ hfin

/-- Witness for C3: split(id, 10) on a block of value 10 is rejected with no
state change (the amount equals the original value). -/
theorem splitBlock_spec_witness :
    splitBlock 1920 1080 3 4 0 [⟨0, 10, ⟨100, 100⟩, false, 0⟩] 0 10 =
      (false, [⟨0, 10, ⟨100, 100⟩, false, 0⟩]) :=
  (splitBlock_spec 1920 1080 3 4 0 [⟨0, 10, ⟨100, 100⟩, false, 0⟩] 0 10 (by decide)).2.1
    ⟨0, 10, ⟨100, 100⟩, false, 0⟩ rfl (Or.inr (by norm_num))

/-! ## C5: block creation performs no validation -/

/-- Counterexample for C5: `addBlock` accepts a negative value and a
non-integer value without any InvalidValue failure; in both cases the store
is mutated (the block is appended), contradicting the claim that creation
rejects such values without mutating state. -/
theorem addBlock_no_validation :
    (addBlock 5 0 (-1) ⟨100, 100⟩ []).2 = [⟨5, -1, ⟨100, 100⟩, false, 0⟩] ∧
    (addBlock 5 0 (-1) ⟨100, 100⟩ []).2 ≠ [] ∧
    (addBlock 6 0 (1 / 2) ⟨100, 100⟩ []).2 = [⟨6, 1 / 2, ⟨100, 100⟩, false, 0⟩] ∧
    (addBlock 6 0 (1 / 2) ⟨100, 100⟩ []).2 ≠ [] := by
  refine ⟨rfl, ?_, rfl, ?_⟩ <;> simp [addBlock]

/-- C5 (amended): block creation never fails and performs no validation:
for every value — including negative and non-integer values — addBlock
returns the generated id and appends exactly one block carrying that value,
the given position, and createdAt = now, leaving all existing blocks
unchanged. -/
theorem addBlock_total (newId : ℕ) (now : ℤ) (value : ℚ) (position : Position)
    (blocks : List NumberBlock) :
    (addBlock newId now value position blocks).1 = newId ∧
    (addBlock newId now value position blocks).2 =
      blocks ++ [⟨newId, value, position, false, now⟩] ∧
    (addBlock newId now value position blocks).2.length = blocks.length + 1 := by
  refine ⟨rfl, rfl, ?_⟩
  simp [addBlock]

/-! ## Sneeze handler (AppShell.tsx and SneezeMenu.tsx) -/

/-- Which of the two sneeze buttons was used (the `SneezeType` union). -/
inductive SneezeType where
  | sneeze1
  | sneeze2
deriving DecidableEq

/-- Transcription of `calculateSneeze1Split` in SneezeMenu.tsx: split to the
nearest ten; value 1 duplicates. -/
def calculateSneeze1Split (value : ℚ) : ℚ × ℚ :=
  if value = 1 then (1, 1)
  else if value ≤ 10 then (value - 1, 1)
  else
    let tens : ℚ := ((⌊(value - 1) / 10⌋ : ℤ) : ℚ) * 10
    (tens, value - tens)

/-- Transcription of `calculateSneeze2Split` in SneezeMenu.tsx: split in
half; value 1 yields 0 + 1. -/
def calculateSneeze2Split (value : ℚ) : ℚ × ℚ :=
  if value = 1 then (0, 1)
  else
    let half : ℚ := ((⌊value / 2⌋ : ℤ) : ℚ)
    (half, value - half)

/-- Transcription of `handleSneeze` in AppShell.tsx, acting on the pair of
the NumberBlock store and the zero-block list.  The ~500ms audio-sync
`setTimeout` before the mutation and the sounds are dropped (only the state
transition is modelled), and the ids generated inside (`addBlock`,
`splitBlock`, `crypto.randomUUID` for the zero) are the parameters
`dupId`, `splitId1`, `splitId2` and `zeroId`. -/
def handleSneeze (screenW screenH : ℚ) (dupId splitId1 splitId2 zeroId : ℕ) (now : ℤ)
    (blocks : List NumberBlock) (zeroBlocks : List ZeroBlock)
    (blockId : ℕ) (sneezeType : SneezeType) : List NumberBlock × List ZeroBlock :=
  match blocks.find? (fun b => b.id == blockId) with
  | none => (blocks, zeroBlocks)
  | some block =>
    if block.value < 1 then (blocks, zeroBlocks)
    else
      let fs : ℚ × ℚ :=
        match sneezeType with
        | .sneeze1 => calculateSneeze1Split block.value
        | .sneeze2 => calculateSneeze2Split block.value
      if block.value = 1 ∧ sneezeType = SneezeType.sneeze1 then
        let dims := getBlockDimensionsQ 1
        ((addBlock dupId now 1
          ⟨min (block.position.x + dims.width + 20) (screenW - dims.width - 10),
           block.position.y⟩ blocks).2, zeroBlocks)
      else if block.value = 1 ∧ sneezeType = SneezeType.sneeze2 then
        let dims := getBlockDimensionsQ 1
        (removeBlock blocks blockId,
         zeroBlocks ++ [⟨zeroId,
           ⟨block.position.x + dims.width / 2 - 20,
            block.position.y + dims.height / 2 - 30⟩⟩])
      else if 0 < fs.1 ∧ 0 < fs.2 ∧ fs.1 + fs.2 = block.value then
        ((splitBlock screenW screenH splitId1 splitId2 now blocks blockId fs.2).2, zeroBlocks)
      else (blocks, zeroBlocks)

/-! ## C4: the halve (sneeze2) variant on a block of value 1 -/

/-- Counterexample for C4 at a store holding one block of value 1: the
sneeze2 path removes the source block and creates the ZeroBlock, but creates
no new NumberBlock at all — the resulting NumberBlock store is empty, so no
new NumberBlock of value 1 exists, contrary to the claim. -/
theorem sneeze2_on_one_no_new_block :
    (handleSneeze 1920 1080 1 2 3 9 0 [⟨0, 1, ⟨100, 100⟩, false, 0⟩] [] 0
      SneezeType.sneeze2).1 = [] ∧
    (handleSneeze 1920 1080 1 2 3 9 0 [⟨0, 1, ⟨100, 100⟩, false, 0⟩] [] 0
      SneezeType.sneeze2).2 = [⟨9, ⟨104, 94⟩⟩] := by
  constructor <;>
    · norm_num [handleSneeze, removeBlock, getBlockDimensionsQ, getSubBlockDimensionsQ,
        CUBE_SIZE, CUBE_GAP, List.find?, List.filter]
      simp

/-- C4 (amended): when the halve split variant (sneeze2) is applied to a
block whose value is exactly 1, the source block is removed and one
ZeroBlock is created at an offset position (+4, −6 relative to the source
position); no new NumberBlock is created. -/
theorem sneeze2_on_one_spec (sw sh : ℚ) (dupId sId1 sId2 zeroId : ℕ) (now : ℤ)
    (blocks : List NumberBlock) (zeros : List ZeroBlock) (blockId : ℕ)
    (block : NumberBlock) (hfd : blocks.find? (fun b => b.id == blockId) = some block)
    (hval : block.value = 1) :
    handleSneeze sw sh dupId sId1 sId2 zeroId now blocks zeros blockId SneezeType.sneeze2 =
      (removeBlock blocks blockId,
       zeros ++ [⟨zeroId, ⟨block.position.x + 4, block.position.y - 6⟩⟩]) := by
  have hdims : getBlockDimensionsQ 1 = ⟨48, 48⟩ := by
    norm_num [getBlockDimensionsQ, getSubBlockDimensionsQ, CUBE_SIZE, CUBE_GAP]
  simp only [handleSneeze, hfd]
  rw [if_neg (by rw [hval]; norm_num)]
  rw [if_neg (by rintro ⟨-, h⟩; cases h)]
  rw [if_pos ⟨hval, trivial⟩]
  rw [hdims]
  simp only [Prod.mk.injEq, List.cons.injEq, ZeroBlock.mk.injEq, Position.mk.injEq,
    true_and, and_true, List.append_cancel_left_eq]
  constructor <;> ring

/-- Witness for the amended C4 at a concrete store with one block of
value 1. -/
theorem sneeze2_on_one_spec_witness :
    handleSneeze 1920 1080 1 2 3 9 0 [⟨0, 1, ⟨100, 100⟩, false, 0⟩] [] 0
      SneezeType.sneeze2 =
      (removeBlock [⟨0, 1, ⟨100, 100⟩, false, 0⟩] 0, [] ++ [⟨9, ⟨100 + 4, 100 - 6⟩⟩]) :=
  sneeze2_on_one_spec 1920 1080 1 2 3 9 0 [⟨0, 1, ⟨100, 100⟩, false, 0⟩] [] 0
    ⟨0, 1, ⟨100, 100⟩, false, 0⟩ rfl rfl

/-! ## C10: the sneeze1 split formula -/

/-- C10: for every integer v ≥ 2, calculateSneeze1Split(v) returns a pair of
strictly positive integers that sum to v: (v−1, 1) when v ≤ 10, and
(t, v−t) with t = floor((v−1)/10)·10 when v > 10; only v = 1 yields the
duplicating pair (1, 1), whose components do not sum to the input. -/
theorem calculateSneeze1Split_spec :
    (∀ v : ℤ, 2 ≤ v →
      ∃ a b : ℤ, calculateSneeze1Split (v : ℚ) = ((a : ℚ), (b : ℚ)) ∧
        0 < a ∧ 0 < b ∧ a + b = v ∧
        (v ≤ 10 → a = v - 1 ∧ b = 1) ∧
        (10 < v → a = (v - 1) / 10 * 10 ∧ b = v - (v - 1) / 10 * 10)) ∧
    (calculateSneeze1Split ((1 : ℤ) : ℚ) = (1, 1) ∧ (1 : ℤ) + 1 ≠ 1) := by
  constructor
  · intro v hv
    have h1q : ((v : ℚ)) ≠ 1 := by
      intro h
      have : v = 1 := by exact_mod_cast h
      omega
    unfold calculateSneeze1Split
    rw [if_neg h1q]
    by_cases h10 : v ≤ 10
    · have h10q : ((v : ℚ)) ≤ 10 := by exact_mod_cast h10
      rw [if_pos h10q]
      refine ⟨v - 1, 1, ?_, by omega, by omega, by omega,
        fun _ => ⟨rfl, rfl⟩, fun h => absurd h (by omega)⟩
      simp only [Prod.mk.injEq]
      constructor
      · push_cast
        ring
      · norm_num
    · have h10q : ¬((v : ℚ)) ≤ 10 := by
        intro h
        exact h10 (by exact_mod_cast h)
      rw [if_neg h10q]
      have hcast : ((v : ℚ)) - 1 = (((v - 1 : ℤ)) : ℚ) := by push_cast; ring
      have hfl : ⌊((v : ℚ) - 1) / 10⌋ = (v - 1) / 10 := by
        rw [hcast]
        have h := Rat.floor_intCast_div_natCast (v - 1) 10
        push_cast at h ⊢
        exact h
      refine ⟨(v - 1) / 10 * 10, v - (v - 1) / 10 * 10, ?_, by omega, by omega, by ring,
        fun h => absurd h (by omega), fun _ => ⟨rfl, rfl⟩⟩
      simp only [Prod.mk.injEq, hfl]
      constructor
      · push_cast
        ring
      · push_cast
        ring
  · constructor
    · unfold calculateSneeze1Split
      norm_num
    · omega

/-- Witness for C10 at v = 27: the split is (20, 7). -/
theorem calculateSneeze1Split_spec_witness :
    calculateSneeze1Split ((27 : ℤ) : ℚ) = (20, 7) := by
  obtain ⟨a, b, heq, -, -, -, -, hgt⟩ := calculateSneeze1Split_spec.1 27 (by norm_num)
  obtain ⟨ha, hb⟩ := hgt (by norm_num)
  rw [heq, ha, hb]
  norm_num
